import Mathlib

/-!
Verification of the cell text-fitting and page-tiling core of the
sticker_print repository (src/app.py, src/app1.py, src/app3.py).

Python strings are modelled as `List Char`, Python `int` as `ℤ`, Python
`float` as `ℚ` (exact arithmetic), and the reportlab drawing surface as a
trace of drawing commands.  reportlab's `stringWidth(text, font, size)`
is the sum of the font's per-character advance widths scaled by
`size / 1000`; the per-character width table is the `PyFont` parameter.
-/

namespace StickerPrint

/-- Python strings modelled as lists of characters. -/
abbrev PyStr := List Char

/-- A font metrics table: per-character advance width (reportlab's
per-mille glyph widths, as exact rationals). -/
structure PyFont where
  cw : Char → ℚ

/-- A font all of whose character widths are nonnegative (true of every
real metrics table). -/
def PyFont.Nonneg (f : PyFont) : Prop := ∀ c : Char, 0 ≤ f.cw c

/-- Sum of the per-character widths of a string under a font table. -/
def baseWidth (f : PyFont) (s : PyStr) : ℚ := (s.map f.cw).sum

/-- reportlab's `stringWidth(text, font, size)`: per-character widths
summed and scaled by `size / 1000`.  (External collaborator of the
repository; linear in the font size.) -/
def stringWidth (s : PyStr) (f : PyFont) (size : ℤ) : ℚ :=
  (size : ℚ) * baseWidth f s / 1000

/-- Python `str.strip()`: drop leading and trailing whitespace. -/
def pyStrip (s : PyStr) : PyStr :=
  ((s.dropWhile Char.isWhitespace).reverse.dropWhile Char.isWhitespace).reverse

/-- Helper of `pySplit`: accumulates the current word (reversed) while
scanning the string. -/
def pySplitAux (acc : List Char) : PyStr → List PyStr
  | [] => if acc = [] then [] else [acc.reverse]
  | c :: cs =>
    if c.isWhitespace then
      if acc = [] then pySplitAux [] cs else acc.reverse :: pySplitAux [] cs
    else
      pySplitAux (c :: acc) cs

/-- Python `str.split()` (no separator argument): split on runs of
whitespace, dropping empty pieces. -/
def pySplit (s : PyStr) : List PyStr := pySplitAux [] s

/-- The loop of `wrap_text` (src/app.py lines 69-77, src/app1.py lines
60-68): greedily extend the current line `cur` with the next word while
the candidate still measures within `max_width`. -/
def wrapLoop (f : PyFont) (size : ℤ) (max_width : ℚ) (cur : PyStr) :
    List PyStr → List PyStr
  | [] => [cur]
  | w :: ws =>
    let candidate := cur ++ ' ' :: w
    if stringWidth candidate f size ≤ max_width then
      wrapLoop f size max_width candidate ws
    else
      cur :: wrapLoop f size max_width w ws

/-- `wrap_text(text, font, size, max_width)` of src/app.py lines 59-78
and src/app1.py lines 54-69: strip the text, return `[""]` if empty,
else greedily pack the whitespace-split words into lines. -/
def wrap_text (text : PyStr) (f : PyFont) (size : ℤ) (max_width : ℚ) :
    List PyStr :=
  match pySplit (pyStrip text) with
  | [] => [[]]
  | w :: ws => wrapLoop f size max_width w ws

/-- The pair computed by the local `fits(fs)` of `fit_text_to_cell`
(src/app1.py lines 86-90): wrap at `fs` to the usable width, truncate to
`max_lines`, and test `lineCount * (fs + line_gap) ≤ usable_h`, where
`usable_w = max(6.0, cell_w - 2*padding)` and
`usable_h = max(6.0, cell_h - 2*padding)` (lines 83-84). -/
def fitsPair (text : PyStr) (f : PyFont) (cell_w cell_h padding line_gap : ℚ)
    (max_lines : ℕ) (fs : ℤ) : Bool × List PyStr :=
  let usable_w : ℚ := max 6 (cell_w - 2 * padding)
  let usable_h : ℚ := max 6 (cell_h - 2 * padding)
  let lines := (wrap_text text f fs usable_w).take max_lines
  let line_h : ℚ := (fs : ℚ) + line_gap
  let total_h : ℚ := (lines.length : ℚ) * line_h
  (decide (total_h ≤ usable_h), lines)

/-- The binary-search loop of `fit_text_to_cell` (src/app1.py lines
92-105): `mid = (lo + hi) // 2` (Python floor division); on success keep
`(mid, lines)` as the best and search above, otherwise search below. -/
def searchLoop {α : Type} (P : ℤ → Bool) (L : ℤ → α) (lo hi best : ℤ)
    (bl : α) : ℤ × α :=
  if _h : lo ≤ hi then
    let mid := Int.fdiv (lo + hi) 2
    if P mid then searchLoop P L (mid + 1) hi mid (L mid)
    else searchLoop P L lo (mid - 1) best bl
  else (best, bl)
termination_by (hi + 1 - lo).toNat
decreasing_by
  all_goals
    simp only [Int.fdiv_eq_ediv _ (by norm_num : (0:ℤ) ≤ 2)] at *
    omega

/-- `fit_text_to_cell(text, font, max_fs, min_fs, cell_w, cell_h,
padding, line_gap, max_lines)` of src/app1.py lines 72-106: binary
search for the largest integer font size in `[min_fs, max_fs]` whose
wrapped-and-truncated lines pass the height test; `best` starts at
`min_fs` with placeholder lines `[""]`. -/
def fit_text_to_cell (text : PyStr) (f : PyFont) (max_fs min_fs : ℤ)
    (cell_w cell_h padding line_gap : ℚ) (max_lines : ℕ) : ℤ × List PyStr :=
  searchLoop (fun fs => (fitsPair text f cell_w cell_h padding line_gap max_lines fs).1)
    (fun fs => (fitsPair text f cell_w cell_h padding line_gap max_lines fs).2)
    min_fs max_fs min_fs [[]]

/-- `draw_cell_text` of src/app.py lines 81-117, as the list of
`(tx, ty, drawn line)` triples passed to `drawString`, in order: wrap to
`max(6.0, w - 2*padding)`, truncate to `max_lines`, place line `i`'s
baseline at `y + (h + total_h)/2 - line_h - i*line_h`, and center each
stripped line by its own measured width (or left-align at `x + padding`). -/
def draw_cell_text (x y w h : ℚ) (text : PyStr) (f : PyFont) (size : ℤ)
    (padding line_gap : ℚ) (max_lines : ℕ) (center : Bool) :
    List (ℚ × ℚ × PyStr) :=
  let usable_w : ℚ := max 6 (w - 2 * padding)
  let lines := (wrap_text text f size usable_w).take max_lines
  let line_h : ℚ := (size : ℚ) + line_gap
  let total_h : ℚ := (lines.length : ℚ) * line_h
  let start_y : ℚ := y + (h + total_h) / 2 - line_h
  lines.enum.map fun p =>
    let line := pyStrip p.2
    let tx : ℚ := if center then x + (w - stringWidth line f size) / 2 else x + padding
    (tx, start_y - (p.1 : ℚ) * line_h, line)

/-- `draw_fitted_text` of src/app1.py lines 109-138: identical layout to
`draw_cell_text` except that the wrap width is `w - 2*padding` with no
floor. -/
def draw_fitted_text (x y w h : ℚ) (text : PyStr) (f : PyFont) (fs : ℤ)
    (padding line_gap : ℚ) (max_lines : ℕ) (center : Bool) :
    List (ℚ × ℚ × PyStr) :=
  let lines := (wrap_text text f fs (w - 2 * padding)).take max_lines
  let line_h : ℚ := (fs : ℚ) + line_gap
  let total_h : ℚ := (lines.length : ℚ) * line_h
  let start_y : ℚ := y + (h + total_h) / 2 - line_h
  lines.enum.map fun p =>
    let line := pyStrip p.2
    let tx : ℚ := if center then x + (w - stringWidth line f fs) / 2 else x + padding
    (tx, start_y - (p.1 : ℚ) * line_h, line)

/-- Column widths of `draw_block_9col_table` (src/app.py lines 156-158,
src/app1.py lines 172-176): each weight's share of the block width. -/
def colWidths (weights : List ℚ) (bw : ℚ) : List ℚ :=
  weights.map fun wgt => wgt / weights.sum * bw

/-- The fixed column weights of src/app.py line 156. -/
def weightsClassic : List ℚ :=
  [5/4, 8/5, 27/20, 6/5, 6/5, 19/20, 21/20, 9/10, 11/10]

/-- The fixed column weights of src/app1.py line 172. -/
def weights2025 : List ℚ :=
  [5/4, 33/20, 27/20, 11/10, 11/10, 21/20, 21/20, 21/20, 23/20]

/-- One grid slot of a generated page: either a drawn record block or an
empty bordered rectangle (src/app.py lines 268-273, src/app1.py lines
289-293). -/
inductive Slot (α : Type) where
  | filled (r : α)
  | emptyRect
deriving DecidableEq

/-- One page of the 3-up generator: the inner `for k in range(split_count)`
loop of `generate_pdf_3up`, drawing record `i + k` if it exists and an
empty bordered rectangle otherwise. -/
def pageSlots {α : Type} (split : ℕ) (l : List α) : List (Slot α) :=
  (List.range split).map fun k => (l[k]?).elim Slot.emptyRect Slot.filled

/-- The `while i < len(rows)` loop of `generate_pdf_3up` (src/app.py
lines 263-276, src/app1.py lines 282-296): emit one page per group of
`split` records; diverges in Python when `split = 0`, hence the
positivity argument. -/
def tileLoop {α : Type} (split : ℕ) (hs : 0 < split) :
    List α → List (List (Slot α))
  | [] => []
  | r :: rest => pageSlots split (r :: rest) :: tileLoop split hs ((r :: rest).drop split)
termination_by l => l.length
decreasing_by simp only [List.length_drop, List.length_cons]; omega

/-- `generate_pdf_3up(df, spec)` of src/app.py lines 242-279 and
src/app1.py lines 264-299, abstracted to the per-page sequence of grid
slots it draws (`split` is `spec.split_count`, 3 in both files). -/
def generate_pdf_3up {α : Type} (split : ℕ) (hs : 0 < split)
    (records : List α) : List (List (Slot α)) :=
  tileLoop split hs records

/-- `PageSpec` of src/app3.py lines 21-25 (fixed 95×150 mm page). -/
structure PageSpec3 where
  page_w_mm : ℚ
  page_h_mm : ℚ

/-- The default `PageSpec()` of src/app3.py. -/
def pageSpecDefault : PageSpec3 := ⟨95, 150⟩

/-- `GridSpec` of src/app3.py lines 28-34 (9×3 grid of 10mm×50mm cells
by default; Python ints modelled as ℤ). -/
structure GridSpec3 where
  cols : ℤ
  rows : ℤ
  col_w_mm : ℚ
  row_h_mm : ℚ

/-- The default `GridSpec()` of src/app3.py. -/
def gridSpecDefault : GridSpec3 := ⟨9, 3, 10, 50⟩

/-- reportlab's `mm` unit: 72/25.4 points, exactly 360/127. -/
def mmQ : ℚ := 360 / 127

/-- Python 3 `round` on an exact rational: round half to even, as used
by `compute_font_size`. -/
def pyRound (q : ℚ) : ℤ :=
  let fl := ⌊q⌋
  let r := q - (fl : ℚ)
  if r < 1/2 then fl
  else if 1/2 < r then fl + 1
  else if 2 ∣ fl then fl else fl + 1

/-- `compute_font_size(base_size, text, symbol_scale)` of src/app3.py
lines 191-195: shrink (never below 6) when the stripped text has more
than one character. -/
def compute_font_size (base_size : ℤ) (text : PyStr) (symbol_scale : ℚ) : ℤ :=
  if 1 < (pyStrip text).length then
    max 6 (pyRound ((base_size : ℚ) * symbol_scale))
  else base_size

/-- A drawing-surface command issued by `generate_pdf_pages`. -/
inductive DrawCmd where
  | setFontCmd (name : PyStr) (size : ℤ)
  | rect (x y w h : ℚ)
  | textCmd (x y : ℚ) (s : PyStr)
deriving DecidableEq

/-- `grid_total_w` of src/app3.py line 254, in points. -/
def gridTotalW (grid : GridSpec3) (col_gap_mm : ℚ) : ℚ :=
  (grid.cols : ℚ) * (grid.col_w_mm * mmQ) + ((grid.cols : ℚ) - 1) * (col_gap_mm * mmQ)

/-- `grid_total_h` of src/app3.py line 255, in points. -/
def gridTotalH (grid : GridSpec3) (row_gap_mm : ℚ) : ℚ :=
  (grid.rows : ℚ) * (grid.row_h_mm * mmQ) + ((grid.rows : ℚ) - 1) * (row_gap_mm * mmQ)

/-- The commands drawn for one grid cell at row `r`, column `col`
(src/app3.py lines 278-292): optional cell border, then
`repeat_per_cell` copies of the text spread down the usable height. -/
def cellCmds (grid : GridSpec3) (x0 y_top col_gap row_gap : ℚ)
    (draw_cell_boxes : Bool) (repeat_per_cell : ℤ) (font_size : ℤ)
    (t : PyStr) (r col : ℕ) : List DrawCmd :=
  let col_w := grid.col_w_mm * mmQ
  let row_h := grid.row_h_mm * mmQ
  let x := x0 + (col : ℚ) * (col_w + col_gap)
  let y := y_top - ((r : ℚ) + 1) * row_h - (r : ℚ) * row_gap
  let padding_y : ℚ := max (2 * mmQ) (2/25 * row_h)
  let usable_h : ℚ := max 1 (row_h - 2 * padding_y)
  let texts := (List.range repeat_per_cell.toNat).map fun i =>
    let frac : ℚ := if repeat_per_cell = 1 then 1/2
      else (i : ℚ) / ((repeat_per_cell : ℚ) - 1)
    let ty := y + row_h - padding_y - usable_h * frac
    let tx := x + col_w / 2
    DrawCmd.textCmd tx (ty - (font_size : ℚ) * (7/20)) t
  (if draw_cell_boxes then [DrawCmd.rect x y col_w row_h] else []) ++ texts

/-- `generate_pdf_pages` of src/app3.py lines 217-297: validate the
input (empty text, page count, grid-vs-page bounds with the source's
0.001 pt tolerance) before any drawing; on success emit one command
list per page. -/
def generate_pdf_pages (text_value : PyStr) (pages : ℤ) (page : PageSpec3)
    (grid : GridSpec3) (left_margin_mm top_margin_mm col_gap_mm row_gap_mm : ℚ)
    (repeat_per_cell : ℤ) (base_font_size : ℤ) (symbol_scale : ℚ)
    (draw_cell_boxes : Bool) (chosen_font_name : PyStr) :
    Except String (List (List DrawCmd)) :=
  let t := pyStrip text_value
  if t = [] then .error "text must not be empty" else
  if pages < 1 then .error "pages must be at least 1" else
  let page_w := page.page_w_mm * mmQ
  let page_h := page.page_h_mm * mmQ
  let left_margin := left_margin_mm * mmQ
  let top_margin := top_margin_mm * mmQ
  let col_gap := col_gap_mm * mmQ
  let row_gap := row_gap_mm * mmQ
  if left_margin + gridTotalW grid col_gap_mm > page_w + 1/1000 then
    .error "grid width exceeds the page" else
  if top_margin + gridTotalH grid row_gap_mm > page_h + 1/1000 then
    .error "grid height exceeds the page" else
  let font_size := compute_font_size base_font_size t symbol_scale
  let x0 := left_margin
  let y_top := page_h - top_margin
  .ok <| (List.range pages.toNat).map fun _ =>
    DrawCmd.setFontCmd chosen_font_name font_size ::
      (List.range grid.rows.toNat).flatMap fun r =>
        (List.range grid.cols.toNat).flatMap fun col =>
          cellCmds grid x0 y_top col_gap row_gap draw_cell_boxes
            repeat_per_cell font_size t r col

/-! ### Structural lemmas about `pySplit` and `pyStrip` -/

lemma pySplitAux_sep (b : PyStr) : ∀ (a : PyStr) (acc : List Char),
    pySplitAux acc (a ++ ' ' :: b) = pySplitAux acc a ++ pySplitAux [] b := by
  intro a
  induction a with
  | nil =>
    intro acc
    show pySplitAux acc (' ' :: b) = pySplitAux acc [] ++ pySplitAux [] b
    by_cases h : acc = [] <;> simp [pySplitAux, h]
  | cons c cs ih =>
    intro acc
    show pySplitAux acc (c :: (cs ++ ' ' :: b)) =
      pySplitAux acc (c :: cs) ++ pySplitAux [] b
    by_cases hw : c.isWhitespace <;> by_cases h : acc = [] <;>
      simp [pySplitAux, hw, h, ih]

lemma pySplitAux_word : ∀ (w : PyStr) (acc : List Char),
    (∀ c ∈ w, c.isWhitespace = false) →
    pySplitAux acc w =
      if acc.reverse ++ w = [] then [] else [acc.reverse ++ w] := by
  intro w
  induction w with
  | nil => intro acc _; by_cases ha : acc = [] <;> simp [pySplitAux, ha]
  | cons c cs ih =>
    intro acc h
    have hc : c.isWhitespace = false := h c (List.mem_cons_self c cs)
    have hcs : ∀ x ∈ cs, x.isWhitespace = false :=
      fun x hx => h x (List.mem_cons_of_mem c hx)
    simp only [pySplitAux, hc, Bool.false_eq_true, if_false, ih (c :: acc) hcs]
    simp

lemma pySplit_word (w : PyStr) (hne : w ≠ [])
    (h : ∀ c ∈ w, c.isWhitespace = false) : pySplit w = [w] := by
  unfold pySplit
  rw [pySplitAux_word w [] h]
  simp [hne]

lemma pySplitAux_mem : ∀ (s : PyStr) (acc : List Char) (w : PyStr),
    w ∈ pySplitAux acc s → (∀ c ∈ acc, c.isWhitespace = false) →
    w ≠ [] ∧ ∀ c ∈ w, c.isWhitespace = false := by
  intro s
  induction s with
  | nil =>
    intro acc w hw hacc
    by_cases ha : acc = []
    · simp [pySplitAux, ha] at hw
    · simp only [pySplitAux, ha, if_false] at hw
      simp only [List.mem_singleton] at hw
      subst hw
      refine ⟨by simpa using ha, ?_⟩
      intro c hc
      exact hacc c (List.mem_reverse.mp hc)
  | cons c cs ih =>
    intro acc w hw hacc
    by_cases hws : c.isWhitespace
    · by_cases ha : acc = []
      · simp only [pySplitAux, hws, if_true, ha, if_pos rfl] at hw
        exact ih [] w hw (by simp)
      · simp only [pySplitAux, hws, if_true, ha, if_false, List.mem_cons] at hw
        rcases hw with hw | hw
        · subst hw
          refine ⟨by simpa using ha, ?_⟩
          intro x hx
          exact hacc x (List.mem_reverse.mp hx)
        · exact ih [] w hw (by simp)
    · simp only [pySplitAux, hws, if_false] at hw
      refine ih (c :: acc) w hw ?_
      intro x hx
      rcases List.mem_cons.mp hx with hx | hx
      · subst hx; exact Bool.eq_false_iff.mpr hws
      · exact hacc x hx

lemma pySplitAux_allws : ∀ (t : PyStr), (∀ c ∈ t, c.isWhitespace = true) →
    ∀ acc, pySplitAux acc t = if acc = [] then [] else [acc.reverse] := by
  intro t
  induction t with
  | nil => intro _ acc; rfl
  | cons c cs ih =>
    intro h acc
    have hc : c.isWhitespace = true := h c (List.mem_cons_self c cs)
    have hcs : ∀ x ∈ cs, x.isWhitespace = true :=
      fun x hx => h x (List.mem_cons_of_mem c hx)
    have h0 : pySplitAux [] cs = [] := by simpa using ih hcs []
    by_cases ha : acc = [] <;> simp [pySplitAux, hc, ha, h0]

lemma pySplitAux_append_ws (t : PyStr) (ht : ∀ c ∈ t, c.isWhitespace = true) :
    ∀ (u : PyStr) (acc : List Char),
    pySplitAux acc (u ++ t) = pySplitAux acc u := by
  intro u
  induction u with
  | nil =>
    intro acc
    show pySplitAux acc t = pySplitAux acc []
    rw [pySplitAux_allws t ht acc]
    rfl
  | cons c cs ih =>
    intro acc
    by_cases hws : c.isWhitespace <;> by_cases ha : acc = [] <;>
      simp [pySplitAux, hws, ha, ih]

lemma pySplitAux_dropWhile : ∀ (s : PyStr),
    pySplitAux [] (s.dropWhile Char.isWhitespace) = pySplitAux [] s := by
  intro s
  induction s with
  | nil => rfl
  | cons c cs ih =>
    by_cases hws : c.isWhitespace <;>
      simp [pySplitAux, List.dropWhile_cons, hws, ih]

lemma pySplit_pyStrip (s : PyStr) : pySplit (pyStrip s) = pySplit s := by
  unfold pySplit pyStrip
  set u := s.dropWhile Char.isWhitespace with hu
  have hdecomp : u = (u.reverse.dropWhile Char.isWhitespace).reverse ++
      (u.reverse.takeWhile Char.isWhitespace).reverse := by
    have h1 : u.reverse.takeWhile Char.isWhitespace ++
        u.reverse.dropWhile Char.isWhitespace = u.reverse :=
      List.takeWhile_append_dropWhile Char.isWhitespace u.reverse
    conv_lhs => rw [← List.reverse_reverse u, ← h1]
    rw [List.reverse_append]
  have hws : ∀ c ∈ (u.reverse.takeWhile Char.isWhitespace).reverse,
      c.isWhitespace = true := by
    intro c hc
    exact List.mem_takeWhile_imp (List.mem_reverse.mp hc)
  calc pySplitAux [] (u.reverse.dropWhile Char.isWhitespace).reverse
      = pySplitAux [] ((u.reverse.dropWhile Char.isWhitespace).reverse ++
          (u.reverse.takeWhile Char.isWhitespace).reverse) :=
        (pySplitAux_append_ws _ hws _ []).symm
    _ = pySplitAux [] u := by rw [← hdecomp]
    _ = pySplitAux [] s := pySplitAux_dropWhile s

/-! ### Structural lemmas about `wrap_text` -/

lemma wrapLoop_ne_nil (f : PyFont) (size : ℤ) (W : ℚ) :
    ∀ (ws : List PyStr) (cur : PyStr), wrapLoop f size W cur ws ≠ [] := by
  intro ws
  induction ws with
  | nil => intro cur; simp [wrapLoop]
  | cons w ws ih =>
    intro cur
    by_cases h : stringWidth (cur ++ ' ' :: w) f size ≤ W <;>
      simp [wrapLoop, h, ih]

lemma wrapLoop_mem (f : PyFont) (size : ℤ) (W : ℚ) (pool : List PyStr) :
    ∀ (ws : List PyStr) (cur : PyStr), (∀ w ∈ ws, w ∈ pool) →
    (stringWidth cur f size ≤ W ∨ cur ∈ pool) →
    ∀ L ∈ wrapLoop f size W cur ws,
      stringWidth L f size ≤ W ∨ L ∈ pool := by
  intro ws
  induction ws with
  | nil =>
    intro cur _ hcur L hL
    simp only [wrapLoop, List.mem_singleton] at hL
    subst hL; exact hcur
  | cons w ws ih =>
    intro cur hws hcur L hL
    have hw : w ∈ pool := hws w (List.mem_cons_self w ws)
    have hws' : ∀ u ∈ ws, u ∈ pool := fun u hu => hws u (List.mem_cons_of_mem w hu)
    by_cases h : stringWidth (cur ++ ' ' :: w) f size ≤ W
    · simp only [wrapLoop, h, if_true] at hL
      exact ih (cur ++ ' ' :: w) hws' (Or.inl h) L hL
    · simp only [wrapLoop, h, if_false, List.mem_cons] at hL
      rcases hL with hL | hL
      · subst hL; exact hcur
      · exact ih w hws' (Or.inr hw) L hL

lemma wrap_text_ws (text : PyStr) (f : PyFont) (size : ℤ) (max_width : ℚ)
    (h : ∀ c ∈ text, c.isWhitespace = true) :
    wrap_text text f size max_width = [[]] := by
  have hsplit : pySplit (pyStrip text) = [] := by
    rw [pySplit_pyStrip]
    unfold pySplit
    simpa using pySplitAux_allws text h []
  unfold wrap_text
  rw [hsplit]

lemma pySplit_append_word (cur w : PyStr) :
    pySplit (cur ++ ' ' :: w) = pySplit cur ++ pySplit w :=
  pySplitAux_sep w cur []

lemma wrapLoop_flat (f : PyFont) (size : ℤ) (W : ℚ) :
    ∀ (ws : List PyStr) (cur : PyStr), (∀ w ∈ ws, pySplit w = [w]) →
    (wrapLoop f size W cur ws).flatMap pySplit = pySplit cur ++ ws := by
  intro ws
  induction ws with
  | nil => intro cur _; simp [wrapLoop]
  | cons w ws ih =>
    intro cur hws
    have hw : pySplit w = [w] := hws w (List.mem_cons_self w ws)
    have hws' : ∀ u ∈ ws, pySplit u = [u] :=
      fun u hu => hws u (List.mem_cons_of_mem w hu)
    by_cases h : stringWidth (cur ++ ' ' :: w) f size ≤ W
    · simp only [wrapLoop, h, if_true, ih _ hws', pySplit_append_word, hw]
      simp
    · simp only [wrapLoop, h, if_false, List.flatMap_cons, ih _ hws', hw]
      simp

lemma pySplit_nil : pySplit ([] : PyStr) = [] := rfl

lemma wrap_text_flat (text : PyStr) (f : PyFont) (size : ℤ) (max_width : ℚ) :
    (wrap_text text f size max_width).flatMap pySplit = pySplit text := by
  have hmem : ∀ u ∈ pySplit (pyStrip text), pySplit u = [u] := by
    intro u hu
    have := pySplitAux_mem (pyStrip text) [] u hu (by simp)
    exact pySplit_word u this.1 this.2
  rcases hsplit : pySplit (pyStrip text) with _ | ⟨w, ws⟩
  · have : wrap_text text f size max_width = [[]] := by
      unfold wrap_text; rw [hsplit]
    rw [this, ← pySplit_pyStrip, hsplit]
    simp [pySplit_nil]
  · have hw : wrap_text text f size max_width = wrapLoop f size max_width w ws := by
      unfold wrap_text; rw [hsplit]
    rw [hw, wrapLoop_flat f size max_width ws w
      (fun u hu => hmem u (hsplit ▸ List.mem_cons_of_mem w hu)),
      hmem w (hsplit ▸ List.mem_cons_self w ws), ← pySplit_pyStrip, hsplit]
    rfl

lemma pySplit_intercalate : ∀ (ls : List PyStr),
    pySplit (List.intercalate [' '] ls) = ls.flatMap pySplit := by
  intro ls
  induction ls with
  | nil => simp [List.intercalate, pySplit_nil]
  | cons a tail ih =>
    cases tail with
    | nil => simp [List.intercalate]
    | cons b l =>
      have hstep : List.intercalate [' '] (a :: b :: l) =
          a ++ ' ' :: List.intercalate [' '] (b :: l) := by
        simp [List.intercalate, List.intersperse]
      rw [hstep, pySplit_append_word, ih]
      simp

/-- A concrete metrics table for witnesses: every character 600/1000 em
wide (a typical monospaced width). -/
def testFont : PyFont := ⟨fun _ => 600⟩

/-- C10: `wrap_text` preserves the word sequence of its input — joining
the returned lines with single spaces and re-splitting on whitespace
yields exactly the whitespace-split word list of the input text
(equivalently, the concatenation of the lines' word lists is the input's
word list): no word is lost, duplicated, reordered, or broken across
lines. -/
theorem wrap_words_preserved (text : PyStr) (f : PyFont) (size : ℤ)
    (max_width : ℚ) :
    pySplit (List.intercalate [' '] (wrap_text text f size max_width)) =
      pySplit text ∧
    (wrap_text text f size max_width).flatMap pySplit = pySplit text := by
  refine ⟨?_, wrap_text_flat text f size max_width⟩
  rw [pySplit_intercalate]
  exact wrap_text_flat text f size max_width

/-- C4: for every text and positive maxWidth, `wrap_text` returns at
least one line; a whitespace-only (in particular empty) text yields
exactly one empty line; and every returned line either measures within
`max_width` at the wrap size or is a single unsplit word of the input
wider than `max_width`. -/
theorem wrap_totality (text : PyStr) (f : PyFont) (size : ℤ)
    (max_width : ℚ) (hpos : 0 < max_width) :
    wrap_text text f size max_width ≠ [] ∧
    ((∀ c ∈ text, c.isWhitespace = true) →
      wrap_text text f size max_width = [[]]) ∧
    ∀ L ∈ wrap_text text f size max_width,
      stringWidth L f size ≤ max_width ∨
        (L ∈ pySplit text ∧ max_width < stringWidth L f size) := by
  refine ⟨?_, wrap_text_ws text f size max_width, ?_⟩
  · unfold wrap_text
    rcases pySplit (pyStrip text) with _ | ⟨w, ws⟩
    · simp
    · exact wrapLoop_ne_nil f size max_width ws w
  · intro L hL
    rcases hsplit : pySplit (pyStrip text) with _ | ⟨w, ws⟩
    · have hwt : wrap_text text f size max_width = [[]] := by
        unfold wrap_text; rw [hsplit]
      rw [hwt] at hL
      simp only [List.mem_singleton] at hL
      subst hL
      left
      simp [stringWidth, baseWidth, hpos.le]
    · have hwt : wrap_text text f size max_width =
          wrapLoop f size max_width w ws := by
        unfold wrap_text; rw [hsplit]
      rw [hwt] at hL
      have hmem := wrapLoop_mem f size max_width (pySplit (pyStrip text)) ws w
        (fun u hu => hsplit ▸ List.mem_cons_of_mem w hu)
        (Or.inr (hsplit ▸ List.mem_cons_self w ws)) L hL
      rcases hmem with hle | hpool
      · exact Or.inl hle
      · by_cases hW : stringWidth L f size ≤ max_width
        · exact Or.inl hW
        · exact Or.inr ⟨pySplit_pyStrip text ▸ hpool, lt_of_not_le hW⟩

/-- C4 witness: the theorem applied at a concrete text, font and width. -/
theorem wrap_totality_witness :
    (0 : ℚ) < 100 ∧
    (wrap_text "hi there".toList testFont 12 100 ≠ [] ∧
      ((∀ c ∈ "hi there".toList, c.isWhitespace = true) →
        wrap_text "hi there".toList testFont 12 100 = [[]]) ∧
      ∀ L ∈ wrap_text "hi there".toList testFont 12 100,
        stringWidth L testFont 12 ≤ 100 ∨
          (L ∈ pySplit "hi there".toList ∧ 100 < stringWidth L testFont 12)) :=
  ⟨by norm_num, wrap_totality "hi there".toList testFont 12 100 (by norm_num)⟩

/-! ### Monotonicity of the greedy wrap in the font size

`stringWidth` is linear in the size with nonnegative per-character
widths, so shrinking the size only makes more candidates fit; the greedy
packer then produces no more lines. -/

lemma baseWidth_nonneg (f : PyFont) (hf : f.Nonneg) (s : PyStr) :
    0 ≤ baseWidth f s := by
  unfold baseWidth
  apply List.sum_nonneg
  intro x hx
  rcases List.mem_map.mp hx with ⟨c, _, rfl⟩
  exact hf c

lemma baseWidth_append (f : PyFont) (a b : PyStr) :
    baseWidth f (a ++ b) = baseWidth f a + baseWidth f b := by
  unfold baseWidth
  rw [List.map_append, List.sum_append]

/-- If a candidate fits at size `s`, any candidate of no larger base
width fits at any size `s' ≤ s` (the budget `W` being nonnegative). -/
lemma stringWidth_trans (f : PyFont) (hf : f.Nonneg) {W : ℚ} (hW : 0 ≤ W)
    {s' s : ℤ} (hss : s' ≤ s) {c' c : PyStr}
    (hb : baseWidth f c' ≤ baseWidth f c)
    (h : stringWidth c f s ≤ W) : stringWidth c' f s' ≤ W := by
  unfold stringWidth at *
  have hb' : 0 ≤ baseWidth f c' := baseWidth_nonneg f hf c'
  rcases le_or_lt (s' : ℚ) 0 with hs' | hs'
  · have h0 : (s' : ℚ) * baseWidth f c' ≤ 0 :=
      mul_nonpos_of_nonpos_of_nonneg hs' hb'
    have := div_nonpos_of_nonpos_of_nonneg h0 (by norm_num : (0:ℚ) ≤ 1000)
    linarith
  · have hmul : (s' : ℚ) * baseWidth f c' ≤ (s : ℚ) * baseWidth f c :=
      calc (s' : ℚ) * baseWidth f c' ≤ (s' : ℚ) * baseWidth f c :=
            mul_le_mul_of_nonneg_left hb hs'.le
        _ ≤ (s : ℚ) * baseWidth f c :=
            mul_le_mul_of_nonneg_right (Int.cast_le.mpr hss) (le_trans hb' hb)
    exact le_trans ((div_le_div_iff_of_pos_right (by norm_num : (0:ℚ) < 1000)).mpr hmul) h

/-- Mutual induction core: at a smaller size the greedy packer emits no
more lines (first conjunct, given the current lines compare in base
width), and never more than one extra line from any pair of current
lines (second conjunct). -/
lemma wrapLoop_len_aux (f : PyFont) (hf : f.Nonneg) {W : ℚ} (hW : 0 ≤ W)
    {s' s : ℤ} (hss : s' ≤ s) :
    ∀ ws : List PyStr,
      (∀ cur' cur : PyStr, baseWidth f cur' ≤ baseWidth f cur →
        (wrapLoop f s' W cur' ws).length ≤ (wrapLoop f s W cur ws).length) ∧
      (∀ cur' cur : PyStr,
        (wrapLoop f s' W cur' ws).length ≤ (wrapLoop f s W cur ws).length + 1) := by
  intro ws
  induction ws with
  | nil => exact ⟨fun _ _ _ => le_refl _, fun _ _ => by simp [wrapLoop]⟩
  | cons w rest ih =>
    obtain ⟨ihA, ihB⟩ := ih
    have hcand : ∀ c' c : PyStr, baseWidth f c' ≤ baseWidth f c →
        baseWidth f (c' ++ ' ' :: w) ≤ baseWidth f (c ++ ' ' :: w) := by
      intro c' c h
      rw [baseWidth_append, baseWidth_append]
      linarith
    have hword : ∀ c : PyStr, baseWidth f w ≤ baseWidth f (c ++ ' ' :: w) := by
      intro c
      rw [baseWidth_append]
      have h1 : 0 ≤ baseWidth f c := baseWidth_nonneg f hf c
      have h2 : baseWidth f (' ' :: w) = f.cw ' ' + baseWidth f w := by
        simp [baseWidth]
      have h3 : 0 ≤ f.cw ' ' := hf ' '
      linarith [h2 ▸ le_refl (baseWidth f (' ' :: w))]
    constructor
    · intro cur' cur hb
      by_cases hbig : stringWidth (cur ++ ' ' :: w) f s ≤ W
      · have hsmall : stringWidth (cur' ++ ' ' :: w) f s' ≤ W :=
          stringWidth_trans f hf hW hss (hcand cur' cur hb) hbig
        simp only [wrapLoop, hbig, hsmall, if_true]
        exact ihA _ _ (hcand cur' cur hb)
      · by_cases hsmall : stringWidth (cur' ++ ' ' :: w) f s' ≤ W
        · simp only [wrapLoop, hbig, hsmall, if_true, if_false, List.length_cons]
          exact ihB _ _
        · simp only [wrapLoop, hbig, hsmall, if_false, List.length_cons]
          exact Nat.succ_le_succ (ihA w w (le_refl _))
    · intro cur' cur
      by_cases hbig : stringWidth (cur ++ ' ' :: w) f s ≤ W
      · by_cases hsmall : stringWidth (cur' ++ ' ' :: w) f s' ≤ W
        · simp only [wrapLoop, hbig, hsmall, if_true]
          exact ihB _ _
        · simp only [wrapLoop, hbig, hsmall, if_true, if_false, List.length_cons]
          exact Nat.succ_le_succ (ihA w (cur ++ ' ' :: w) (hword cur))
      · by_cases hsmall : stringWidth (cur' ++ ' ' :: w) f s' ≤ W
        · simp only [wrapLoop, hbig, hsmall, if_true, if_false, List.length_cons]
          exact le_trans (ihB _ w) (Nat.succ_le_succ (Nat.le_succ _))
        · simp only [wrapLoop, hbig, hsmall, if_false, List.length_cons]
          exact Nat.succ_le_succ (Nat.le_succ_of_le (ihA w w (le_refl _)))

/-- At a smaller font size the wrap has no more lines. -/
lemma wrap_text_length_mono (text : PyStr) (f : PyFont) (hf : f.Nonneg)
    {W : ℚ} (hW : 0 ≤ W) {s' s : ℤ} (hss : s' ≤ s) :
    (wrap_text text f s' W).length ≤ (wrap_text text f s W).length := by
  unfold wrap_text
  rcases pySplit (pyStrip text) with _ | ⟨w, ws⟩
  · exact le_refl _
  · exact (wrapLoop_len_aux f hf hW hss ws).1 w w (le_refl _)

/-- Monotonicity of the fitter's height predicate (helper shared by the
fit theorems): whenever a size `s` passes, so does every `s' ≤ s`. -/
lemma fitsPair_mono (text : PyStr) (f : PyFont) (hf : f.Nonneg)
    (cell_w cell_h padding line_gap : ℚ) (max_lines : ℕ)
    (s' s : ℤ) (hss : s' ≤ s)
    (hfit : (fitsPair text f cell_w cell_h padding line_gap max_lines s).1 = true) :
    (fitsPair text f cell_w cell_h padding line_gap max_lines s').1 = true := by
  unfold fitsPair at *
  simp only [decide_eq_true_eq] at *
  set W : ℚ := max 6 (cell_w - 2 * padding) with hWdef
  have hW : (0:ℚ) ≤ W := le_trans (by norm_num) (le_max_left _ _)
  have hH : (0:ℚ) ≤ max 6 (cell_h - 2 * padding) :=
    le_trans (by norm_num) (le_max_left _ _)
  have hlen : (wrap_text text f s' W).length ≤ (wrap_text text f s W).length :=
    wrap_text_length_mono text f hf hW hss
  set n' := ((wrap_text text f s' W).take max_lines).length with hn'
  set n := ((wrap_text text f s W).take max_lines).length with hn
  have hnn : n' ≤ n := by
    rw [hn', hn, List.length_take, List.length_take]
    exact min_le_min (le_refl _) hlen
  rcases le_or_lt ((s' : ℚ) + line_gap) 0 with hneg | hpos
  · calc (n' : ℚ) * ((s' : ℚ) + line_gap) ≤ 0 :=
        mul_nonpos_of_nonneg_of_nonpos (by positivity) hneg
      _ ≤ max 6 (cell_h - 2 * padding) := hH
  · calc (n' : ℚ) * ((s' : ℚ) + line_gap)
        ≤ (n : ℚ) * ((s' : ℚ) + line_gap) :=
          mul_le_mul_of_nonneg_right (by exact_mod_cast hnn) hpos.le
      _ ≤ (n : ℚ) * ((s : ℚ) + line_gap) := by
          apply mul_le_mul_of_nonneg_left _ (by positivity)
          have : (s' : ℚ) ≤ (s : ℚ) := Int.cast_le.mpr hss
          linarith
      _ ≤ max 6 (cell_h - 2 * padding) := hfit

/-- C2: the fits-height predicate of `fit_text_to_cell` (wrap to the
usable width, truncate to `max_lines`, test
`lineCount * (size + line_gap) ≤ usable height`) is monotonically
non-increasing in the integer font size: whenever a size `s` passes,
every smaller size `s' ≤ s` passes too — for every text, cell geometry,
line gap and line bound the fitter can be invoked with. -/
theorem fits_monotone (text : PyStr) (f : PyFont) (hf : f.Nonneg)
    (cell_w cell_h padding line_gap : ℚ) (max_lines : ℕ)
    (s' s : ℤ) (hss : s' ≤ s)
    (hfit : (fitsPair text f cell_w cell_h padding line_gap max_lines s).1 = true) :
    (fitsPair text f cell_w cell_h padding line_gap max_lines s').1 = true :=
  fitsPair_mono text f hf cell_w cell_h padding line_gap max_lines s' s hss hfit

/-- C2 witness: the monotonicity theorem applied at a concrete fitter
invocation. -/
theorem fits_monotone_witness :
    testFont.Nonneg ∧ (6 : ℤ) ≤ 10 ∧
    (fitsPair "hi there friends".toList testFont 80 40 (7/2) (3/2) 3 10).1 = true ∧
    (fitsPair "hi there friends".toList testFont 80 40 (7/2) (3/2) 3 6).1 = true := by
  have hf : testFont.Nonneg := fun _ => by norm_num [testFont]
  have h10 : (fitsPair "hi there friends".toList testFont 80 40 (7/2) (3/2) 3 10).1 = true := by
    norm_num +decide [fitsPair, wrap_text, pyStrip, pySplit, pySplitAux, wrapLoop,
      stringWidth, baseWidth, testFont]
  exact ⟨hf, by norm_num,  h10,
    fits_monotone "hi there friends".toList testFont hf 80 40 (7/2) (3/2) 3 6 10
      (by norm_num) h10⟩

/-! ### Correctness of the binary search -/

lemma searchLoop_mid {lo hi : ℤ} (h : lo ≤ hi) :
    lo ≤ Int.fdiv (lo + hi) 2 ∧ Int.fdiv (lo + hi) 2 ≤ hi := by
  rw [Int.fdiv_eq_ediv _ (by norm_num : (0:ℤ) ≤ 2)]
  omega

/-- One unfolding step of `searchLoop`, with the midpoint substituted. -/
lemma searchLoop_unfold {α : Type} (P : ℤ → Bool) (L : ℤ → α)
    (lo hi best : ℤ) (bl : α) :
    searchLoop P L lo hi best bl =
      if lo ≤ hi then
        (if P (Int.fdiv (lo + hi) 2) then
          searchLoop P L (Int.fdiv (lo + hi) 2 + 1) hi (Int.fdiv (lo + hi) 2)
            (L (Int.fdiv (lo + hi) 2))
        else searchLoop P L lo (Int.fdiv (lo + hi) 2 - 1) best bl)
      else (best, bl) := by
  rw [searchLoop]
  rfl

/-- If every size in `[lo, hi]` fails, the search returns its current
best unchanged. -/
lemma searchLoop_none {α : Type} (P : ℤ → Bool) (L : ℤ → α) :
    ∀ (lo hi best : ℤ) (bl : α),
      (∀ s : ℤ, lo ≤ s → s ≤ hi → P s = false) →
      searchLoop P L lo hi best bl = (best, bl) := by
  refine searchLoop.induct P L
    (fun lo hi best bl => (∀ s : ℤ, lo ≤ s → s ≤ hi → P s = false) →
      searchLoop P L lo hi best bl = (best, bl)) ?_ ?_ ?_
  · intro lo hi best bl h mid hP _ hall
    have hmid : mid = Int.fdiv (lo + hi) 2 := rfl
    obtain ⟨hm1, hm2⟩ := searchLoop_mid h
    rw [← hmid] at hm1 hm2
    rw [hall _ hm1 hm2] at hP
    exact absurd hP (by simp)
  · intro lo hi best bl h mid hP ih hall
    have hmid : mid = Int.fdiv (lo + hi) 2 := rfl
    obtain ⟨hm1, hm2⟩ := searchLoop_mid h
    rw [← hmid] at hm1 hm2
    simp only [Bool.not_eq_true] at hP
    rw [searchLoop_unfold, if_pos h, ← hmid, hP]
    simp only [Bool.false_eq_true, if_false]
    exact ih fun s h1 h2 => hall s h1 (by omega)
  · intro lo hi best bl h _
    rw [searchLoop_unfold, if_neg h]

/-- Main invariant of the binary search: with a monotone predicate, from
a state whose `best` is the greatest passing size below `lo` (whenever
one exists) and where everything above `hi` fails, the search returns
the greatest passing size in `[minB, maxB]` together with its lines. -/
lemma searchLoop_spec {α : Type} (P : ℤ → Bool) (L : ℤ → α)
    (mono : ∀ s' s : ℤ, s' ≤ s → P s = true → P s' = true)
    (minB maxB : ℤ) :
    ∀ (lo hi best : ℤ) (bl : α),
      minB ≤ lo → hi ≤ maxB → lo ≤ hi + 1 →
      (∀ s : ℤ, hi < s → s ≤ maxB → P s = false) →
      (∀ s : ℤ, minB ≤ s → s < lo → P s = true →
        P best = true ∧ bl = L best ∧ minB ≤ best ∧ best < lo ∧ s ≤ best) →
      (∃ s : ℤ, minB ≤ s ∧ s ≤ maxB ∧ P s = true) →
      P (searchLoop P L lo hi best bl).1 = true ∧
      (searchLoop P L lo hi best bl).2 = L (searchLoop P L lo hi best bl).1 ∧
      minB ≤ (searchLoop P L lo hi best bl).1 ∧
      (searchLoop P L lo hi best bl).1 ≤ maxB ∧
      ∀ s : ℤ, minB ≤ s → s ≤ maxB → P s = true →
        s ≤ (searchLoop P L lo hi best bl).1 := by
  refine searchLoop.induct P L (fun lo hi best bl =>
    minB ≤ lo → hi ≤ maxB → lo ≤ hi + 1 →
    (∀ s : ℤ, hi < s → s ≤ maxB → P s = false) →
    (∀ s : ℤ, minB ≤ s → s < lo → P s = true →
      P best = true ∧ bl = L best ∧ minB ≤ best ∧ best < lo ∧ s ≤ best) →
    (∃ s : ℤ, minB ≤ s ∧ s ≤ maxB ∧ P s = true) →
    P (searchLoop P L lo hi best bl).1 = true ∧
    (searchLoop P L lo hi best bl).2 = L (searchLoop P L lo hi best bl).1 ∧
    minB ≤ (searchLoop P L lo hi best bl).1 ∧
    (searchLoop P L lo hi best bl).1 ≤ maxB ∧
    ∀ s : ℤ, minB ≤ s → s ≤ maxB → P s = true →
      s ≤ (searchLoop P L lo hi best bl).1) ?_ ?_ ?_
  · -- the probed midpoint passes: search above with best := mid
    intro lo hi best bl h mid hP ih h1 h2 h3 h4 h5 h6
    have hmid : mid = Int.fdiv (lo + hi) 2 := rfl
    obtain ⟨hm1, hm2⟩ := searchLoop_mid h
    rw [← hmid] at hm1 hm2
    rw [searchLoop_unfold, if_pos h, ← hmid, hP, if_pos rfl]
    refine ih (by omega) h2 (by omega) h4 ?_ h6
    intro s hs1 hs2 _
    exact ⟨hP, rfl, by omega, by omega, by omega⟩
  · -- the probed midpoint fails: search below, best unchanged
    intro lo hi best bl h mid hP ih h1 h2 h3 h4 h5 h6
    have hmid : mid = Int.fdiv (lo + hi) 2 := rfl
    obtain ⟨hm1, hm2⟩ := searchLoop_mid h
    rw [← hmid] at hm1 hm2
    simp only [Bool.not_eq_true] at hP
    rw [searchLoop_unfold, if_pos h, ← hmid, hP]
    simp only [Bool.false_eq_true, if_false]
    refine ih h1 (by omega) (by omega) ?_ h5 h6
    intro s hs1 hs2
    rcases lt_or_le hi s with hgt | hle
    · exact h4 s hgt hs2
    · by_contra hcon
      have hs : P s = true := by
        cases hPs : P s
        · exact absurd hPs hcon
        · rfl
      have hPm : P mid = true := mono mid s (by omega) hs
      rw [hP] at hPm
      exact absurd hPm (by simp)
  · -- empty interval: lo = hi + 1, the kept best is the answer
    intro lo hi best bl h h1 h2 h3 h4 h5 h6
    rw [searchLoop_unfold, if_neg h]
    have hlo : lo = hi + 1 := by omega
    obtain ⟨s0, hs0min, hs0max, hs0P⟩ := h6
    have hs0hi : s0 ≤ hi := by
      by_contra hcon
      have := h4 s0 (by omega) hs0max
      rw [this] at hs0P
      exact absurd hs0P (by simp)
    obtain ⟨hPb, hbl, hminb, hblo, _⟩ := h5 s0 hs0min (by omega) hs0P
    refine ⟨hPb, hbl, hminb, by omega, ?_⟩
    intro s hs1 hs2 hsP
    have hshi : s ≤ hi := by
      by_contra hcon
      have := h4 s (by omega) hs2
      rw [this] at hsP
      exact absurd hsP (by simp)
    exact (h5 s hs1 (by omega) hsP).2.2.2.2

/-- The fitter's height predicate spelled out: the truncated lines'
count times the line height fits in the floored usable height. -/
lemma fitsPair_fst_iff (text : PyStr) (f : PyFont)
    (cell_w cell_h padding line_gap : ℚ) (max_lines : ℕ) (fs : ℤ) :
    (fitsPair text f cell_w cell_h padding line_gap max_lines fs).1 = true ↔
      (((fitsPair text f cell_w cell_h padding line_gap max_lines fs).2.length : ℚ) *
        ((fs : ℚ) + line_gap) ≤ max 6 (cell_h - 2 * padding)) := by
  simp [fitsPair]

/-- The lines carried by the fitter's predicate are the wrap at that
size, truncated to `max_lines`. -/
lemma fitsPair_snd (text : PyStr) (f : PyFont)
    (cell_w cell_h padding line_gap : ℚ) (max_lines : ℕ) (fs : ℤ) :
    (fitsPair text f cell_w cell_h padding line_gap max_lines fs).2 =
      (wrap_text text f fs (max 6 (cell_w - 2 * padding))).take max_lines := rfl

/-- When no size in `[min_fs, max_fs]` passes, `fit_text_to_cell`
returns `min_fs` with the untouched placeholder `[""]`. -/
lemma fit_of_none (text : PyStr) (f : PyFont) (max_fs min_fs : ℤ)
    (cell_w cell_h padding line_gap : ℚ) (max_lines : ℕ)
    (hall : ∀ s : ℤ, min_fs ≤ s → s ≤ max_fs →
      (fitsPair text f cell_w cell_h padding line_gap max_lines s).1 = false) :
    fit_text_to_cell text f max_fs min_fs cell_w cell_h padding line_gap max_lines =
      (min_fs, [[]]) :=
  searchLoop_none _ _ min_fs max_fs min_fs [[]] hall

/-- When some size in `[min_fs, max_fs]` passes, `fit_text_to_cell`
returns a passing size that is maximal among the passing sizes, within
bounds, together with that size's truncated wrap. -/
lemma fit_spec (text : PyStr) (f : PyFont) (hf : f.Nonneg)
    (max_fs min_fs : ℤ) (cell_w cell_h padding line_gap : ℚ) (max_lines : ℕ)
    (hminmax : min_fs ≤ max_fs)
    (hex : ∃ s : ℤ, min_fs ≤ s ∧ s ≤ max_fs ∧
      (fitsPair text f cell_w cell_h padding line_gap max_lines s).1 = true) :
    (fitsPair text f cell_w cell_h padding line_gap max_lines
      (fit_text_to_cell text f max_fs min_fs cell_w cell_h padding line_gap max_lines).1).1 = true ∧
    (fit_text_to_cell text f max_fs min_fs cell_w cell_h padding line_gap max_lines).2 =
      (fitsPair text f cell_w cell_h padding line_gap max_lines
        (fit_text_to_cell text f max_fs min_fs cell_w cell_h padding line_gap max_lines).1).2 ∧
    min_fs ≤ (fit_text_to_cell text f max_fs min_fs cell_w cell_h padding line_gap max_lines).1 ∧
    (fit_text_to_cell text f max_fs min_fs cell_w cell_h padding line_gap max_lines).1 ≤ max_fs ∧
    ∀ s : ℤ, min_fs ≤ s → s ≤ max_fs →
      (fitsPair text f cell_w cell_h padding line_gap max_lines s).1 = true →
      s ≤ (fit_text_to_cell text f max_fs min_fs cell_w cell_h padding line_gap max_lines).1 := by
  have := searchLoop_spec
    (fun fs => (fitsPair text f cell_w cell_h padding line_gap max_lines fs).1)
    (fun fs => (fitsPair text f cell_w cell_h padding line_gap max_lines fs).2)
    (fun s' s hss hp => fitsPair_mono text f hf cell_w cell_h padding line_gap max_lines s' s hss hp)
    min_fs max_fs min_fs max_fs min_fs [[]]
    (le_refl _) (le_refl _) (by omega)
    (fun _ hs1 hs2 => absurd (lt_of_lt_of_le hs1 hs2) (lt_irrefl max_fs))
    (fun _ hs1 hs2 _ => absurd (lt_of_le_of_lt hs1 hs2) (lt_irrefl min_fs))
    hex
  exact this

/-- C1: for every fit invocation with `min_fs ≤ max_fs` (over a font
with nonnegative character widths) for which at least one integer size
in `[min_fs, max_fs]` passes the height test, `fit_text_to_cell`
returns the largest such size, together with that size's
wrapped-and-truncated lines. -/
theorem fit_returns_largest (text : PyStr) (f : PyFont) (hf : f.Nonneg)
    (max_fs min_fs : ℤ) (cell_w cell_h padding line_gap : ℚ) (max_lines : ℕ)
    (hminmax : min_fs ≤ max_fs)
    (hex : ∃ s : ℤ, min_fs ≤ s ∧ s ≤ max_fs ∧
      (fitsPair text f cell_w cell_h padding line_gap max_lines s).1 = true) :
    IsGreatest {s : ℤ | min_fs ≤ s ∧ s ≤ max_fs ∧
        (fitsPair text f cell_w cell_h padding line_gap max_lines s).1 = true}
      (fit_text_to_cell text f max_fs min_fs cell_w cell_h padding line_gap max_lines).1 ∧
    (fit_text_to_cell text f max_fs min_fs cell_w cell_h padding line_gap max_lines).2 =
      (wrap_text text f
        (fit_text_to_cell text f max_fs min_fs cell_w cell_h padding line_gap max_lines).1
        (max 6 (cell_w - 2 * padding))).take max_lines := by
  obtain ⟨hP, hL, hmin, hmax, hgreatest⟩ :=
    fit_spec text f hf max_fs min_fs cell_w cell_h padding line_gap max_lines hminmax hex
  refine ⟨⟨⟨hmin, hmax, hP⟩, ?_⟩, ?_⟩
  · intro s hs
    exact hgreatest s hs.1 hs.2.1 hs.2.2
  · rw [hL, fitsPair_snd]

/-- C1 witness: the theorem applied to a concrete three-word text in an
80×40 cell with sizes 6..40 (size 6 passes, so the hypothesis holds). -/
theorem fit_returns_largest_witness :
    testFont.Nonneg ∧ (6 : ℤ) ≤ 40 ∧
    (∃ s : ℤ, 6 ≤ s ∧ s ≤ 40 ∧
      (fitsPair "hi there friends".toList testFont 80 40 (7/2) (3/2) 3 s).1 = true) ∧
    (IsGreatest {s : ℤ | 6 ≤ s ∧ s ≤ 40 ∧
        (fitsPair "hi there friends".toList testFont 80 40 (7/2) (3/2) 3 s).1 = true}
      (fit_text_to_cell "hi there friends".toList testFont 40 6 80 40 (7/2) (3/2) 3).1 ∧
    (fit_text_to_cell "hi there friends".toList testFont 40 6 80 40 (7/2) (3/2) 3).2 =
      (wrap_text "hi there friends".toList testFont
        (fit_text_to_cell "hi there friends".toList testFont 40 6 80 40 (7/2) (3/2) 3).1
        (max 6 (80 - 2 * (7/2)))).take 3) := by
  have hf : testFont.Nonneg := fun _ => by norm_num [testFont]
  have h6 : (fitsPair "hi there friends".toList testFont 80 40 (7/2) (3/2) 3 6).1 = true := by
    norm_num +decide [fitsPair, wrap_text, pyStrip, pySplit, pySplitAux, wrapLoop,
      stringWidth, baseWidth, testFont]
  have hex : ∃ s : ℤ, 6 ≤ s ∧ s ≤ 40 ∧
      (fitsPair "hi there friends".toList testFont 80 40 (7/2) (3/2) 3 s).1 = true :=
    ⟨6, by norm_num, by norm_num, h6⟩
  exact ⟨hf, by norm_num, hex,
    fit_returns_largest "hi there friends".toList testFont hf 40 6 80 40 (7/2) (3/2) 3
      (by norm_num) hex⟩

/-- In the degenerate example — text "WWWWWWWWWW" in a 10×10 cell with
default padding 3.5 and line gap 1.5 — every size in 6..40 fails the
height test (a single unbreakable line of height ≥ 7.5 vs usable 6). -/
lemma wfits_false : ∀ s : ℤ, 6 ≤ s → s ≤ 40 →
    (fitsPair "WWWWWWWWWW".toList testFont 10 10 (7/2) (3/2) 3 s).1 = false := by
  intro s h1 _
  have hwrap : wrap_text "WWWWWWWWWW".toList testFont s (max 6 (10 - 2 * (7/2))) =
      ["WWWWWWWWWW".toList] := by
    norm_num +decide [wrap_text, pySplit, pySplitAux, pyStrip, wrapLoop]
  simp only [fitsPair, hwrap]
  rw [decide_eq_false_iff_not]
  have hs : (6 : ℚ) ≤ (s : ℚ) := by exact_mod_cast h1
  simp only [List.take, List.length_cons, List.length_nil]
  norm_num
  linarith

/-- C3 counterexample: in the degenerate example the claim says the fit
returns size 6 with the wrapped-and-truncated lines at size 6 (the full
word on one line); the code instead returns the untouched placeholder
`[""]`. -/
theorem fit_fallback_cex :
    fit_text_to_cell "WWWWWWWWWW".toList testFont 40 6 10 10 (7/2) (3/2) 3 =
      (6, [[]]) ∧
    (wrap_text "WWWWWWWWWW".toList testFont 6 (max 6 (10 - 2 * (7/2)))).take 3 =
      ["WWWWWWWWWW".toList] ∧
    (fit_text_to_cell "WWWWWWWWWW".toList testFont 40 6 10 10 (7/2) (3/2) 3).2 ≠
      (wrap_text "WWWWWWWWWW".toList testFont 6 (max 6 (10 - 2 * (7/2)))).take 3 := by
  have hfit := fit_of_none "WWWWWWWWWW".toList testFont 40 6 10 10 (7/2) (3/2) 3 wfits_false
  have hwrap : (wrap_text "WWWWWWWWWW".toList testFont 6 (max 6 (10 - 2 * (7/2)))).take 3 =
      ["WWWWWWWWWW".toList] := by
    norm_num +decide [wrap_text, pySplit, pySplitAux, pyStrip, wrapLoop]
  refine ⟨hfit, hwrap, ?_⟩
  rw [hfit, hwrap]
  simp

/-- C3 (amended): for every fit invocation in which no integer size in
`[min_fs, max_fs]` passes the height test, `fit_text_to_cell` returns
`min_fs` paired with the initial placeholder `[""]` — NOT the text's
wrapped lines at `min_fs` — and never raises an error; in particular the
degenerate "WWWWWWWWWW" 10×10 example yields `(6, [""])`. -/
theorem fit_fallback (text : PyStr) (f : PyFont) (max_fs min_fs : ℤ)
    (cell_w cell_h padding line_gap : ℚ) (max_lines : ℕ)
    (hall : ∀ s : ℤ, min_fs ≤ s → s ≤ max_fs →
      (fitsPair text f cell_w cell_h padding line_gap max_lines s).1 = false) :
    fit_text_to_cell text f max_fs min_fs cell_w cell_h padding line_gap max_lines =
      (min_fs, [[]]) :=
  fit_of_none text f max_fs min_fs cell_w cell_h padding line_gap max_lines hall

/-- C3 witness: the amended theorem applied at the degenerate example. -/
theorem fit_fallback_witness :
    (∀ s : ℤ, 6 ≤ s → s ≤ 40 →
      (fitsPair "WWWWWWWWWW".toList testFont 10 10 (7/2) (3/2) 3 s).1 = false) ∧
    fit_text_to_cell "WWWWWWWWWW".toList testFont 40 6 10 10 (7/2) (3/2) 3 =
      (6, [[]]) :=
  ⟨wfits_false,
    fit_fallback "WWWWWWWWWW".toList testFont 40 6 10 10 (7/2) (3/2) 3 wfits_false⟩

/-- Size 5 passes the code's height test for the single word "a" in a
100×10 cell with padding 3.5 and zero line gap (1 line, 5 ≤ max(6,3)). -/
lemma afits_true5 : (fitsPair "a".toList testFont 100 10 (7/2) 0 3 5).1 = true := by
  norm_num +decide [fitsPair, wrap_text, pyStrip, pySplit, pySplitAux, wrapLoop,
    stringWidth, baseWidth, testFont]

/-- Size 3 (the minimum) also passes the code's height test there. -/
lemma afits_true3 : (fitsPair "a".toList testFont 100 10 (7/2) 0 3 3).1 = true := by
  norm_num +decide [fitsPair, wrap_text, pyStrip, pySplit, pySplitAux, wrapLoop,
    stringWidth, baseWidth, testFont]

/-- The fit of "a" in the 100×10 cell with sizes 3..5 returns size 5
with one line: the code tests against the floored usable height
`max(6, 10 - 7) = 6`, not against `10 - 7 = 3`. -/
lemma afit_value :
    fit_text_to_cell "a".toList testFont 5 3 100 10 (7/2) 0 3 = (5, ["a".toList]) := by
  have hf : testFont.Nonneg := fun _ => by norm_num [testFont]
  obtain ⟨hP, hL, hmin, hmax, hgreatest⟩ :=
    fit_spec "a".toList testFont hf 5 3 100 10 (7/2) 0 3 (by norm_num)
      ⟨5, by norm_num, le_refl 5, afits_true5⟩
  have h5 : (fit_text_to_cell "a".toList testFont 5 3 100 10 (7/2) 0 3).1 = 5 :=
    le_antisymm hmax (hgreatest 5 (by norm_num) (le_refl 5) afits_true5)
  have h2 : (fit_text_to_cell "a".toList testFont 5 3 100 10 (7/2) 0 3).2 =
      ["a".toList] := by
    rw [hL, h5, fitsPair_snd]
    norm_num +decide [wrap_text, pySplit, pySplitAux, pyStrip, wrapLoop]
  rw [Prod.ext_iff]
  exact ⟨h5, h2⟩

/-- C5 counterexample: for the word "a" in a 100×10 cell, padding 3.5,
line gap 0, sizes 3..5, the minimum size passes the height test (so the
claim's degraded-case exception does not apply), yet the returned
FitResult has `lineCount * (size + lineGap) = 5`, which exceeds the
claimed bound `cellHeight - 2*padding = 3`: the code tests against
`max(6, cellHeight - 2*padding)`, not `cellHeight - 2*padding`. -/
theorem fit_height_bound_cex :
    (fitsPair "a".toList testFont 100 10 (7/2) 0 3 3).1 = true ∧
    ¬ (((fit_text_to_cell "a".toList testFont 5 3 100 10 (7/2) 0 3).2.length : ℚ) *
        (((fit_text_to_cell "a".toList testFont 5 3 100 10 (7/2) 0 3).1 : ℚ) + 0) ≤
          10 - 2 * (7/2)) := by
  refine ⟨afits_true3, ?_⟩
  rw [afit_value]
  norm_num

/-- C5 (amended): the returned FitResult satisfies
`lineCount * (size + lineGap) ≤ max(6, cellHeight - 2*padding)` — the
code's floored usable height — whenever some size in range passes the
height test; when no size passes, the fit degrades without error to
`(min_fs, [""])`, accepting overflow.  (The wrap width is likewise the
floored `max(6, cellWidth - 2*padding)`.) -/
theorem fit_height_bound (text : PyStr) (f : PyFont) (hf : f.Nonneg)
    (max_fs min_fs : ℤ) (cell_w cell_h padding line_gap : ℚ) (max_lines : ℕ)
    (hminmax : min_fs ≤ max_fs) :
    ((∃ s : ℤ, min_fs ≤ s ∧ s ≤ max_fs ∧
        (fitsPair text f cell_w cell_h padding line_gap max_lines s).1 = true) →
      ((fit_text_to_cell text f max_fs min_fs cell_w cell_h padding line_gap max_lines).2.length : ℚ) *
        (((fit_text_to_cell text f max_fs min_fs cell_w cell_h padding line_gap max_lines).1 : ℚ) +
          line_gap) ≤ max 6 (cell_h - 2 * padding)) ∧
    ((∀ s : ℤ, min_fs ≤ s → s ≤ max_fs →
        (fitsPair text f cell_w cell_h padding line_gap max_lines s).1 = false) →
      fit_text_to_cell text f max_fs min_fs cell_w cell_h padding line_gap max_lines =
        (min_fs, [[]])) := by
  constructor
  · intro hex
    obtain ⟨hP, hL, _, _, _⟩ :=
      fit_spec text f hf max_fs min_fs cell_w cell_h padding line_gap max_lines hminmax hex
    rw [fitsPair_fst_iff] at hP
    rw [hL]
    exact hP
  · exact fit_of_none text f max_fs min_fs cell_w cell_h padding line_gap max_lines

/-- C5 witness: the amended theorem applied at the "a" 100×10 example. -/
theorem fit_height_bound_witness :
    testFont.Nonneg ∧ (3 : ℤ) ≤ 5 ∧
    (((∃ s : ℤ, 3 ≤ s ∧ s ≤ 5 ∧
        (fitsPair "a".toList testFont 100 10 (7/2) 0 3 s).1 = true) →
      ((fit_text_to_cell "a".toList testFont 5 3 100 10 (7/2) 0 3).2.length : ℚ) *
        (((fit_text_to_cell "a".toList testFont 5 3 100 10 (7/2) 0 3).1 : ℚ) + 0) ≤
          max 6 (10 - 2 * (7/2))) ∧
    ((∀ s : ℤ, 3 ≤ s → s ≤ 5 →
        (fitsPair "a".toList testFont 100 10 (7/2) 0 3 s).1 = false) →
      fit_text_to_cell "a".toList testFont 5 3 100 10 (7/2) 0 3 = (3, [[]]))) := by
  have hf : testFont.Nonneg := fun _ => by norm_num [testFont]
  exact ⟨hf, by norm_num,
    fit_height_bound "a".toList testFont hf 5 3 100 10 (7/2) 0 3 (by norm_num)⟩

/-- C7: for every list of positive column weights and every block
width, the computed column widths `(w_i / sum w) * bw` sum exactly to
the block width in exact rational arithmetic — the columns partition the
available width with no rounding gap. -/
theorem col_widths_partition (weights : List ℚ) (bw : ℚ)
    (hpos : ∀ w ∈ weights, 0 < w) (hne : weights ≠ []) :
    (colWidths weights bw).sum = bw := by
  have hsum : 0 < weights.sum := List.sum_pos weights hpos hne
  unfold colWidths
  have hrw : (fun wgt => wgt / weights.sum * bw) =
      fun wgt => wgt * (bw / weights.sum) := by
    funext wgt
    field_simp
  rw [hrw, List.sum_map_mul_right, List.map_id']
  field_simp

/-- C7 witness: the theorem applied to the nine fixed weights of
src/app1.py over a 273.6 pt block. -/
theorem col_widths_partition_witness :
    (∀ w ∈ weights2025, (0:ℚ) < w) ∧ weights2025 ≠ [] ∧
    (colWidths weights2025 (1368/5)).sum = 1368/5 := by
  have hpos : ∀ w ∈ weights2025, (0:ℚ) < w := by
    intro w hw
    simp only [weights2025, List.mem_cons, List.not_mem_nil, or_false] at hw
    rcases hw with rfl | rfl | rfl | rfl | rfl | rfl | rfl | rfl | rfl <;> norm_num
  have hne : weights2025 ≠ [] := by simp [weights2025]
  exact ⟨hpos, hne, col_widths_partition weights2025 (1368/5) hpos hne⟩

/-- C8: both cell renderers place line `i`'s baseline at
`y + (h + totalTextHeight)/2 - lineHeight - i*lineHeight` (so the first
line sits at `y + (h + totalTextHeight)/2 - lineHeight` and each
subsequent line exactly `lineHeight` lower), and set its x to
`x + (w - lineWidth)/2` from the drawn line's own measured width when
centering is enabled, or to `x + padding` when it is disabled; the drawn
line is the stripped wrapped line. -/
theorem renderer_positions (x y w h : ℚ) (text : PyStr) (f : PyFont)
    (size : ℤ) (padding line_gap : ℚ) (max_lines : ℕ) (center : Bool) :
    ((draw_cell_text x y w h text f size padding line_gap max_lines center).length =
      ((wrap_text text f size (max 6 (w - 2 * padding))).take max_lines).length ∧
    ∀ i : ℕ,
      (draw_cell_text x y w h text f size padding line_gap max_lines center)[i]? =
        (((wrap_text text f size (max 6 (w - 2 * padding))).take max_lines)[i]?).map
          fun L =>
            (if center then x + (w - stringWidth (pyStrip L) f size) / 2 else x + padding,
             y + (h + ((((wrap_text text f size (max 6 (w - 2 * padding))).take max_lines).length : ℚ) *
               ((size : ℚ) + line_gap))) / 2 - ((size : ℚ) + line_gap) -
               (i : ℚ) * ((size : ℚ) + line_gap),
             pyStrip L)) ∧
    ((draw_fitted_text x y w h text f size padding line_gap max_lines center).length =
      ((wrap_text text f size (w - 2 * padding)).take max_lines).length ∧
    ∀ i : ℕ,
      (draw_fitted_text x y w h text f size padding line_gap max_lines center)[i]? =
        (((wrap_text text f size (w - 2 * padding)).take max_lines)[i]?).map
          fun L =>
            (if center then x + (w - stringWidth (pyStrip L) f size) / 2 else x + padding,
             y + (h + ((((wrap_text text f size (w - 2 * padding)).take max_lines).length : ℚ) *
               ((size : ℚ) + line_gap))) / 2 - ((size : ℚ) + line_gap) -
               (i : ℚ) * ((size : ℚ) + line_gap),
             pyStrip L)) := by
  refine ⟨⟨?_, ?_⟩, ?_, ?_⟩
  · simp [draw_cell_text]
  · intro i
    simp only [draw_cell_text, List.getElem?_map, List.getElem?_enum, Option.map_map]
    cases ((wrap_text text f size (max 6 (w - 2 * padding))).take max_lines)[i]? with
    | none => rfl
    | some L =>
      simp only [Option.map_some']
      refine congrArg some ?_
      refine Prod.ext rfl (Prod.ext ?_ rfl)
      show y + (h + _) / 2 - _ - (i : ℚ) * _ = _
      ring
  · simp [draw_fitted_text]
  · intro i
    simp only [draw_fitted_text, List.getElem?_map, List.getElem?_enum, Option.map_map]
    cases ((wrap_text text f size (w - 2 * padding)).take max_lines)[i]? with
    | none => rfl
    | some L =>
      simp only [Option.map_some']
      refine congrArg some ?_
      refine Prod.ext rfl (Prod.ext ?_ rfl)
      show y + (h + _) / 2 - _ - (i : ℚ) * _ = _
      ring

/-! ### The 3-up page tiler -/

lemma pageSlots_length {α : Type} (split : ℕ) (l : List α) :
    (pageSlots split l).length = split := by
  simp [pageSlots]

lemma pageSlots_getElem {α : Type} (split : ℕ) (l : List α) (k : ℕ)
    (hk : k < split) :
    (pageSlots split l)[k]? =
      some ((l[k]?).elim Slot.emptyRect Slot.filled) := by
  simp [pageSlots, List.getElem?_map, List.getElem?_range hk]

lemma tileLoop_length {α : Type} (split : ℕ) (hs : 0 < split) :
    ∀ l : List α, (tileLoop split hs l).length = (l.length + split - 1) / split := by
  intro l
  induction l using tileLoop.induct split hs with
  | case1 =>
    rw [tileLoop]
    simp only [List.length_nil, List.length, Nat.zero_add]
    exact (Nat.div_eq_of_lt (by omega)).symm
  | case2 r rest ih =>
    rw [tileLoop]
    simp only [List.length_cons, List.length_drop] at *
    rw [ih]
    rcases le_or_lt split (rest.length + 1) with hle | hlt
    · have h1 : rest.length + 1 - split + split - 1 = rest.length := by omega
      have h2 : rest.length + 1 + split - 1 = rest.length + split := by omega
      rw [h1, h2, Nat.add_div_right _ hs]
    · have h1 : rest.length + 1 - split = 0 := by omega
      have hA : (0 + split - 1) / split = 0 := Nat.div_eq_of_lt (by omega)
      have hB : (rest.length + 1 + split - 1) / split = 1 :=
        Nat.div_eq_of_lt_le (by omega) (by omega)
      rw [h1, hA, hB]

lemma tileLoop_getElem {α : Type} (split : ℕ) (hs : 0 < split) :
    ∀ (l : List α) (pi : ℕ),
      (tileLoop split hs l)[pi]? =
        if pi < (l.length + split - 1) / split then
          some (pageSlots split (l.drop (pi * split)))
        else none := by
  intro l
  induction l using tileLoop.induct split hs with
  | case1 =>
    intro pi
    rw [tileLoop]
    simp only [List.length_nil, Nat.zero_add, List.getElem?_nil]
    rw [Nat.div_eq_of_lt (by omega)]
    simp
  | case2 r rest ih =>
    intro pi
    have hnum : ((r :: rest).length + split - 1) / split =
        (((r :: rest).drop split).length + split - 1) / split + 1 := by
      have h1 := tileLoop_length split hs (r :: rest)
      have h2 := tileLoop_length split hs ((r :: rest).drop split)
      rw [tileLoop] at h1
      simp only [List.length_cons] at h1 h2 ⊢
      omega
    rw [tileLoop]
    cases pi with
    | zero =>
      have hpos : 0 < ((r :: rest).length + split - 1) / split := by
        rw [Nat.lt_iff_add_one_le, Nat.zero_add, Nat.one_le_div_iff hs]
        simp only [List.length_cons]
        omega
      simp only [List.getElem?_cons_zero, if_pos hpos, Nat.zero_mul, List.drop_zero]
    | succ pj =>
      have harith : split + pj * split = (pj + 1) * split := by ring
      simp only [List.getElem?_cons_succ, ih pj, List.drop_drop, hnum, harith]
      have hiff : pj < (((r :: rest).drop split).length + split - 1) / split ↔
          pj + 1 < (((r :: rest).drop split).length + split - 1) / split + 1 := by
        omega
      by_cases hlt : pj < (((r :: rest).drop split).length + split - 1) / split
      · rw [if_pos hlt, if_pos (hiff.mp hlt)]
      · rw [if_neg hlt, if_neg (fun hc => hlt (hiff.mpr hc))]

/-- C6: for every record list rendered `per` cells per page, the tiler
emits exactly `ceil(R / per)` pages; each page has exactly `per` grid
slots; slot `ki` of page `pi` holds record `pi*per + ki` when it exists
and an empty bordered rectangle otherwise; and an empty record list
yields zero pages. -/
theorem tiler_pages {α : Type} (records : List α) (per : ℕ) (hper : 0 < per) :
    (records = [] → generate_pdf_3up per hper records = []) ∧
    (generate_pdf_3up per hper records).length = (records.length + per - 1) / per ∧
    (∀ pg ∈ generate_pdf_3up per hper records, pg.length = per) ∧
    ∀ (pi ki : ℕ) (pg : List (Slot α)),
      (generate_pdf_3up per hper records)[pi]? = some pg → ki < per →
      pg[ki]? = some ((records[pi * per + ki]?).elim Slot.emptyRect Slot.filled) := by
  refine ⟨?_, tileLoop_length per hper records, ?_, ?_⟩
  · intro h
    subst h
    rw [generate_pdf_3up, tileLoop]
  · intro pg hpg
    obtain ⟨pi, hpi⟩ := List.mem_iff_getElem?.mp hpg
    rw [generate_pdf_3up, tileLoop_getElem per hper records pi] at hpi
    by_cases hlt : pi < (records.length + per - 1) / per
    · rw [if_pos hlt] at hpi
      cases hpi
      exact pageSlots_length per _
    · rw [if_neg hlt] at hpi
      exact absurd hpi (by simp)
  · intro pi ki pg hpg hki
    rw [generate_pdf_3up, tileLoop_getElem per hper records pi] at hpg
    by_cases hlt : pi < (records.length + per - 1) / per
    · rw [if_pos hlt] at hpg
      cases hpg
      rw [pageSlots_getElem per _ ki hki, List.getElem?_drop]
    · rw [if_neg hlt] at hpg
      exact absurd hpg (by simp)

/-- C6 witness: seven records three-up give three pages of 3+3+1 records
with the two final slots empty-bordered, per the theorem. -/
theorem tiler_pages_witness :
    0 < 3 ∧
    (([10, 20, 30, 40, 50, 60, 70] : List ℕ) = [] →
      generate_pdf_3up 3 (by norm_num) [10, 20, 30, 40, 50, 60, 70] = []) ∧
    (generate_pdf_3up 3 (by norm_num) ([10, 20, 30, 40, 50, 60, 70] : List ℕ)).length =
      (([10, 20, 30, 40, 50, 60, 70] : List ℕ).length + 3 - 1) / 3 ∧
    (∀ pg ∈ generate_pdf_3up 3 (by norm_num) ([10, 20, 30, 40, 50, 60, 70] : List ℕ),
      pg.length = 3) ∧
    ∀ (pi ki : ℕ) (pg : List (Slot ℕ)),
      (generate_pdf_3up 3 (by norm_num) ([10, 20, 30, 40, 50, 60, 70] : List ℕ))[pi]? =
        some pg → ki < 3 →
      pg[ki]? = some ((([10, 20, 30, 40, 50, 60, 70] : List ℕ)[pi * 3 + ki]?).elim
        Slot.emptyRect Slot.filled) :=
  ⟨by norm_num, tiler_pages [10, 20, 30, 40, 50, 60, 70] 3 (by norm_num)⟩

/-- C9 (amended): `generate_pdf_pages` succeeds iff the stripped text is
nonempty, the page count is at least 1, and the grid plus margin exceeds
neither page dimension by more than the source's 0.001 pt tolerance;
every rejection happens before any drawing command is produced, and in
the non-rejected cases no such error is raised. -/
theorem validation_rejects_iff (text_value : PyStr) (pages : ℤ)
    (page : PageSpec3) (grid : GridSpec3)
    (left_margin_mm top_margin_mm col_gap_mm row_gap_mm : ℚ)
    (repeat_per_cell : ℤ) (base_font_size : ℤ) (symbol_scale : ℚ)
    (draw_cell_boxes : Bool) (chosen_font_name : PyStr) :
    (generate_pdf_pages text_value pages page grid left_margin_mm top_margin_mm
      col_gap_mm row_gap_mm repeat_per_cell base_font_size symbol_scale
      draw_cell_boxes chosen_font_name).isOk = true ↔
    (pyStrip text_value ≠ [] ∧ 1 ≤ pages ∧
      left_margin_mm * mmQ + gridTotalW grid col_gap_mm ≤
        page.page_w_mm * mmQ + 1/1000 ∧
      top_margin_mm * mmQ + gridTotalH grid row_gap_mm ≤
        page.page_h_mm * mmQ + 1/1000) := by
  simp only [generate_pdf_pages]
  split_ifs with h1 h2 h3 h4
  · simp [Except.isOk, Except.toBool, h1]
  · simp only [Except.isOk, Except.toBool, Bool.false_eq_true, false_iff]
    rintro ⟨-, hp, -, -⟩
    omega
  · simp only [Except.isOk, Except.toBool, Bool.false_eq_true, false_iff]
    rintro ⟨-, -, hw, -⟩
    linarith
  · simp only [Except.isOk, Except.toBool, Bool.false_eq_true, false_iff]
    rintro ⟨-, -, -, hh⟩
    linarith
  · simp only [Except.isOk, Except.toBool, true_iff]
    exact ⟨h1, by omega, not_lt.mp h3, not_lt.mp h4⟩

/-- C9 counterexample: a grid that strictly exceeds the page width —
one 95 + 127/720000 mm column on the 95 mm page, i.e. 1/2000 pt of
overflow — is not rejected: the code only rejects overflow beyond its
0.001 pt tolerance, so the claim's "grid exceeds the page width implies
rejection" is false. -/
theorem validation_tolerance_cex :
    (0 : ℚ) * mmQ + gridTotalW ⟨1, 1, 95 + 127/720000, 50⟩ 0 >
      pageSpecDefault.page_w_mm * mmQ ∧
    (generate_pdf_pages "X".toList 1 pageSpecDefault ⟨1, 1, 95 + 127/720000, 50⟩
      0 0 0 0 1 18 (3/4) false "Helvetica".toList).isOk = true := by
  constructor
  · norm_num [gridTotalW, pageSpecDefault, mmQ]
  · rw [generate_pdf_pages]
    norm_num +decide [pyStrip, gridTotalW, gridTotalH, pageSpecDefault, mmQ, Except.isOk]

end StickerPrint
